import Mathlib

/-!
Shallow embedding of the circom-compat library: the R1CS binary reader
(src/r1cs_reader.rs) and the circuit synthesizer (src/circuit.rs), with
theorems about header parsing, constraint reading, section discovery, the
file-to-circuit conversion, and witness allocation.

Modelling conventions:
* bytes are natural numbers; a well-formed stream has every byte below 256;
* machine integers (u32, u64, i64, usize) are natural numbers or integers,
  with explicit wrap-around written out where overflow or underflow matters;
* fallible Rust code returns `Except`; a Rust panic (out-of-bounds index or
  slice) is modelled as `Option.none`;
* the coefficient field `F` is kept opaque, exactly as the source is generic
  over `F: PrimeField`; the parameter `ofN` stands for `F::from` applied to a
  small unsigned integer.
-/

namespace CircomCompat

/-- Typed errors of the reader (src/r1cs_reader.rs): one constructor per
distinct error value the Rust code can produce, plus the read failure
(`read_exact` past the end) and the negative-seek failure of the
underlying stream. -/
inductive ParseErr where
  | eof
  | invalidMagic
  | unsupportedVersion
  | missingHeaderOffset
  | missingHeaderSize
  | missingConstraintOffset
  | unsupportedFieldSize
  | invalidHeaderSize
  | unsupportedModulus
  | negativeSeek
  deriving DecidableEq

/-- Sequencing of fallible reads, mirroring the Rust question-mark operator. -/
def bindE {α β : Type} (x : Except ParseErr α) (f : α → Except ParseErr β) :
    Except ParseErr β :=
  match x with
  | .error e => .error e
  | .ok a => f a

@[simp] theorem bindE_ok {α β : Type} (a : α) (f : α → Except ParseErr β) :
    bindE (.ok a) f = f a := rfl

@[simp] theorem bindE_error {α β : Type} (e : ParseErr) (f : α → Except ParseErr β) :
    bindE (.error e) f = .error e := rfl

/-- Little-endian value of a byte list. -/
def leOfBytes : List Nat → Nat
  | [] => 0
  | b :: bs => b + 256 * leOfBytes bs

/-- Little-endian encoding of a value in `n` bytes. -/
def leBytes : Nat → Nat → List Nat
  | 0, _ => []
  | n + 1, v => v % 256 :: leBytes n (v / 256)

@[simp] theorem leBytes_length (n v : Nat) : (leBytes n v).length = n := by
  induction n generalizing v with
  | zero => rfl
  | succ n ih => simp [leBytes, ih]

theorem leOfBytes_leBytes (n v : Nat) : leOfBytes (leBytes n v) = v % 256 ^ n := by
  induction n generalizing v with
  | zero => simp [leBytes, leOfBytes, Nat.mod_one]
  | succ n ih =>
    simp only [leBytes, leOfBytes, ih]
    rw [pow_succ, mul_comm (256 ^ n) 256, Nat.mod_mul]

theorem leOfBytes_leBytes_of_lt {n v : Nat} (h : v < 256 ^ n) :
    leOfBytes (leBytes n v) = v := by
  rw [leOfBytes_leBytes, Nat.mod_eq_of_lt h]

/-- Read exactly `n` bytes off the front of the stream (Rust `read_exact`):
fails with an end-of-file error when fewer than `n` bytes remain. -/
def readBytes (n : Nat) (s : List Nat) : Except ParseErr (List Nat × List Nat) :=
  if n ≤ s.length then .ok (s.take n, s.drop n) else .error .eof

/-- Read a little-endian u32 (Rust `read_u32::<LittleEndian>`). -/
def readU32 (s : List Nat) : Except ParseErr (Nat × List Nat) :=
  bindE (readBytes 4 s) fun p => .ok (leOfBytes p.1, p.2)

/-- Read a little-endian u64 (Rust `read_u64::<LittleEndian>`). -/
def readU64 (s : List Nat) : Except ParseErr (Nat × List Nat) :=
  bindE (readBytes 8 s) fun p => .ok (leOfBytes p.1, p.2)

theorem readBytes_exact {l : List Nat} {n : Nat} (r : List Nat) (h : l.length = n) :
    readBytes n (l ++ r) = .ok (l, r) := by
  subst h
  simp [readBytes]

theorem readBytes_ext {n : Nat} {s b rem : List Nat} (t : List Nat)
    (h : readBytes n s = .ok (b, rem)) : readBytes n (s ++ t) = .ok (b, rem ++ t) := by
  unfold readBytes at h ⊢
  by_cases hn : n ≤ s.length
  · simp only [hn, if_pos, Except.ok.injEq, Prod.mk.injEq] at h
    have hn' : n ≤ (s ++ t).length := by simp; omega
    simp only [hn', if_pos, Except.ok.injEq, Prod.mk.injEq]
    constructor
    · rw [List.take_append_of_le_length hn, h.1]
    · rw [List.drop_append_of_le_length hn, h.2]
  · simp [hn] at h

theorem readU32_ext {s rem : List Nat} {v : Nat} (t : List Nat)
    (h : readU32 s = .ok (v, rem)) : readU32 (s ++ t) = .ok (v, rem ++ t) := by
  unfold readU32 at h ⊢
  cases hb : readBytes 4 s with
  | error e => rw [hb] at h; simp at h
  | ok p =>
    rw [hb] at h
    simp only [bindE_ok, Except.ok.injEq, Prod.mk.injEq] at h
    rw [readBytes_ext t hb]
    simp [h.1, h.2]

theorem readU64_ext {s rem : List Nat} {v : Nat} (t : List Nat)
    (h : readU64 s = .ok (v, rem)) : readU64 (s ++ t) = .ok (v, rem ++ t) := by
  unfold readU64 at h ⊢
  cases hb : readBytes 8 s with
  | error e => rw [hb] at h; simp at h
  | ok p =>
    rw [hb] at h
    simp only [bindE_ok, Except.ok.injEq, Prod.mk.injEq] at h
    rw [readBytes_ext t hb]
    simp [h.1, h.2]

theorem readU32_encode {v : Nat} (h : v < 4294967296) (r : List Nat) :
    readU32 (leBytes 4 v ++ r) = .ok (v, r) := by
  unfold readU32
  rw [readBytes_exact r (leBytes_length 4 v)]
  simp only [bindE_ok]
  rw [leOfBytes_leBytes_of_lt (by norm_num [h])]

theorem readU64_encode {v : Nat} (h : v < 18446744073709551616) (r : List Nat) :
    readU64 (leBytes 8 v ++ r) = .ok (v, r) := by
  unfold readU64
  rw [readBytes_exact r (leBytes_length 8 v)]
  simp only [bindE_ok]
  rw [leOfBytes_leBytes_of_lt (by norm_num [h])]

/-- Header of an R1CS file (struct `Header` in src/r1cs_reader.rs). The u32
fields and the u64 field `n_labels` are modelled as naturals; a header coming
from a real file has every u32 field below 2^32 and `n_labels` below 2^64. -/
structure Header where
  field_size : Nat
  prime_size : List Nat
  n_wires : Nat
  n_pub_out : Nat
  n_pub_in : Nat
  n_prv_in : Nat
  n_labels : Nat
  n_constraints : Nat
  deriving DecidableEq

/-- Byte pattern of the only supported modulus: `hex::decode("ffffff7f")`. -/
def m31Bytes : List Nat := [0xff, 0xff, 0xff, 0x7f]

/-- Header parser (`Header::new`): validates the field size, the declared
section size and the modulus fingerprint, then reads the six counters in fixed
little-endian order.  Returns the header together with the unread tail. -/
def Header.new (size : Nat) (s0 : List Nat) : Except ParseErr (Header × List Nat) :=
  bindE (readU32 s0) fun p1 =>
  if p1.1 ≠ 4 then .error .unsupportedFieldSize
  else if size ≠ 32 + p1.1 then .error .invalidHeaderSize
  else
    bindE (readBytes p1.1 p1.2) fun p2 =>
    if p2.1 ≠ m31Bytes then .error .unsupportedModulus
    else
      bindE (readU32 p2.2) fun pw =>
      bindE (readU32 pw.2) fun po =>
      bindE (readU32 po.2) fun pi =>
      bindE (readU32 pi.2) fun pv =>
      bindE (readU64 pv.2) fun pl =>
      bindE (readU32 pl.2) fun pc =>
      .ok (⟨p1.1, p2.1, pw.1, po.1, pi.1, pv.1, pl.1, pc.1⟩, pc.2)

/-- Sparse linear combination as read from the file: (wire index, coefficient)
pairs in file order (`ConstraintVec<F>` in src/lib.rs). -/
abbrev ConstraintVec (F : Type) : Type := List (Nat × F)

/-- Constraint: the three sparse linear combinations A, B, C
(`Constraints<F>` in src/lib.rs). -/
abbrev Constraints (F : Type) : Type :=
  ConstraintVec F × ConstraintVec F × ConstraintVec F

/-- Term-reading loop inside `read_constraint_vec`: read `n` pairs of u32s,
converting each coefficient with `F::from` (here `ofN`). -/
def readTerms {F : Type} (ofN : Nat → F) : Nat → List Nat →
    Except ParseErr (List (Nat × F) × List Nat)
  | 0, s => .ok ([], s)
  | n + 1, s =>
    bindE (readU32 s) fun pi =>
    bindE (readU32 pi.2) fun pv =>
    bindE (readTerms ofN n pv.2) fun pr =>
    .ok ((pi.1, ofN pv.1) :: pr.1, pr.2)

/-- Read one sparse linear combination (`read_constraint_vec`): a u32 term
count followed by that many (index, value) pairs. -/
def readConstraintVec {F : Type} (ofN : Nat → F) (s : List Nat) :
    Except ParseErr (List (Nat × F) × List Nat) :=
  bindE (readU32 s) fun pn => readTerms ofN pn.1 pn.2

/-- Constraint-reading loop inside `read_constraints`: `n` constraints, each
three consecutive sparse linear combinations in the order A, B, C. -/
def readConstraintsLoop {F : Type} (ofN : Nat → F) : Nat → List Nat →
    Except ParseErr (List (Constraints F) × List Nat)
  | 0, s => .ok ([], s)
  | n + 1, s =>
    bindE (readConstraintVec ofN s) fun pa =>
    bindE (readConstraintVec ofN pa.2) fun pb =>
    bindE (readConstraintVec ofN pb.2) fun pc =>
    bindE (readConstraintsLoop ofN n pc.2) fun pr =>
    .ok ((pa.1, pb.1, pc.1) :: pr.1, pr.2)

/-- Read the constraint section (`read_constraints`): exactly
`header.n_constraints` constraints. -/
def readConstraints {F : Type} (ofN : Nat → F) (h : Header) (s : List Nat) :
    Except ParseErr (List (Constraints F) × List Nat) :=
  readConstraintsLoop ofN h.n_constraints s

/-- In-memory R1CS file model (struct `R1CSFile<F>`). -/
structure R1CSFile (F : Type) where
  version : Nat
  header : Header
  constraints : List (Constraints F)
  deriving DecidableEq

/-- Circuit model (struct `R1CS<F>`). -/
structure R1CS (F : Type) where
  num_inputs : Nat
  num_aux : Nat
  num_variables : Nat
  constraints : List (Constraints F)
  deriving DecidableEq

/-- Conversion `impl From<R1CSFile<F>> for R1CS<F>`.  The Rust code computes
`(1 + file.header.n_pub_in + file.header.n_pub_out) as usize`: the sum is u32
arithmetic, wrapping at 2^32 (release mode) before the cast, so the wrap is
made explicit here.  `num_aux = num_variables - num_inputs` is then a usize
subtraction with no check; its 64-bit wrap-around is likewise explicit (the
subtrahend is below 2^32, so the formula is the exact usize semantics). -/
def R1CS.ofFile {F : Type} (f : R1CSFile F) : R1CS F :=
  { num_inputs := (1 + f.header.n_pub_in + f.header.n_pub_out) % 4294967296
    num_aux := (f.header.n_wires + 18446744073709551616 -
      (1 + f.header.n_pub_in + f.header.n_pub_out) % 4294967296) % 18446744073709551616
    num_variables := f.header.n_wires
    constraints := f.constraints }

/-- Read exactly `n` bytes at absolute position `pos` of the stream, returning
the bytes and the new position.  A cursor read starting at or past the end of
the data (or reaching it before `n` bytes) fails like `read_exact`. -/
def readBytesAt (data : List Nat) (pos n : Nat) : Except ParseErr (List Nat × Nat) :=
  if pos + n ≤ data.length then .ok ((data.drop pos).take n, pos + n) else .error .eof

/-- Absolute-position little-endian u32 read. -/
def readU32At (data : List Nat) (pos : Nat) : Except ParseErr (Nat × Nat) :=
  bindE (readBytesAt data pos 4) fun p => .ok (leOfBytes p.1, p.2)

/-- Absolute-position little-endian u64 read. -/
def readU64At (data : List Nat) (pos : Nat) : Except ParseErr (Nat × Nat) :=
  bindE (readBytesAt data pos 8) fun p => .ok (leOfBytes p.1, p.2)

/-- Reinterpretation of a u64 as an i64 (the Rust cast `sec_size as i64`).
Meaningful for `v < 2^64`. -/
def i64OfU64 (v : Nat) : Int :=
  if v < 9223372036854775808 then (v : Int) else (v : Int) - 18446744073709551616

/-- Relative seek (`reader.seek(SeekFrom::Current(sec_size as i64))`): a cursor
accepts any non-negative target position, even past the end of the data, and
rejects a negative one. -/
def seekCurrent (pos delta : Nat) : Except ParseErr Nat :=
  if (pos : Int) + i64OfU64 delta < 0 then .error .negativeSeek
  else .ok ((pos : Int) + i64OfU64 delta).toNat

/-- Insertion into a `HashMap<u32, u64>`, modelled as an association list where
inserting an existing key overwrites its value. -/
def hmInsert (m : List (Nat × Nat)) (k v : Nat) : List (Nat × Nat) :=
  match m with
  | [] => [(k, v)]
  | (k', v') :: rest => if k' = k then (k, v) :: rest else (k', v') :: hmInsert rest k v

/-- Lookup in the association-list model of `HashMap<u32, u64>`. -/
def hmGet (m : List (Nat × Nat)) (k : Nat) : Option Nat :=
  match m with
  | [] => none
  | (k', v') :: rest => if k' = k then some v' else hmGet rest k

/-- Section-discovery loop of `R1CSFile::new`: for each of the `n` declared
sections, read its type (u32) and byte length (u64), record the current stream
position as the section's data offset and the length as its size, then seek
forward by the declared length. -/
def sectionScan (data : List Nat) :
    Nat → Nat → List (Nat × Nat) → List (Nat × Nat) →
    Except ParseErr (List (Nat × Nat) × List (Nat × Nat))
  | 0, _, offs, sizes => .ok (offs, sizes)
  | n + 1, pos, offs, sizes =>
    bindE (readU32At data pos) fun pt =>
    bindE (readU64At data pt.2) fun ps =>
    bindE (seekCurrent ps.2 ps.1) fun pos' =>
    sectionScan data n pos' (hmInsert offs pt.1 ps.2) (hmInsert sizes pt.1 ps.1)

/-- Magic bytes `[0x72, 0x31, 0x63, 0x73]` ("r1cs"). -/
def magicBytes : List Nat := [0x72, 0x31, 0x63, 0x73]

/-- Top-level reader `R1CSFile::new`: magic, version, section count, section
discovery, then a seek to the header section (type 1) and to the constraint
section (type 2).  Seeking to offset `o` and then reading sequentially is
modelled by running the sequential sub-parser on `data.drop o`. -/
def R1CSFile.new {F : Type} (ofN : Nat → F) (data : List Nat) :
    Except ParseErr (R1CSFile F) :=
  bindE (readBytesAt data 0 4) fun pm =>
  if pm.1 ≠ magicBytes then .error .invalidMagic
  else
    bindE (readU32At data pm.2) fun pv =>
    if pv.1 ≠ 1 then .error .unsupportedVersion
    else
      bindE (readU32At data pv.2) fun pn =>
      bindE (sectionScan data pn.1 pn.2 [] []) fun pmaps =>
      match hmGet pmaps.1 1 with
      | none => .error .missingHeaderOffset
      | some headerOffset =>
        match hmGet pmaps.2 1 with
        | none => .error .missingHeaderSize
        | some headerSize =>
          bindE (Header.new headerSize (data.drop headerOffset)) fun ph =>
          match hmGet pmaps.1 2 with
          | none => .error .missingConstraintOffset
          | some constraintOffset =>
            bindE (readConstraints ofN ph.1 (data.drop constraintOffset)) fun pcs =>
            .ok ⟨pv.1, ph.1, pcs.1⟩

/-- Circuit paired with an optional witness (struct `CircomCircuit<F>` in
src/circuit.rs). -/
structure CircomCircuit (F : Type) where
  r1cs : R1CS F
  witness : Option (List F)

/-- Accessor `get_public_inputs`: `None` witness gives `None`; a present
witness is sliced as `w[1..num_inputs]`.  The Rust slice panics when
`1 > num_inputs` or `num_inputs > w.len()`; a panic is modelled as the outer
`Option.none`, a normal return as `some` of the Rust `Option`. -/
def CircomCircuit.getPublicInputs {F : Type} (c : CircomCircuit F) :
    Option (Option (List F)) :=
  match c.witness with
  | none => some none
  | some w =>
    if 1 ≤ c.r1cs.num_inputs ∧ c.r1cs.num_inputs ≤ w.length then
      some (some ((w.drop 1).take (c.r1cs.num_inputs - 1)))
    else none

/-- Proving-system variable handles built by the synthesizer
(`ark_relations::r1cs::Variable`): the code constructs only the `Instance` and
`Witness` cases. -/
inductive Variable where
  | Instance : Nat → Variable
  | Witness : Nat → Variable
  deriving DecidableEq

/-- State of the target constraint system as driven by `generate_constraints`:
the values of the allocated instance variables in allocation order, likewise
for witness variables, and the enforced constraints in enforcement order, each
a triple of linear combinations (lists of (coefficient, variable) pairs in
build order). -/
structure SynthState (F : Type) where
  instVals : List F
  witVals : List F
  enforced : List (List (F × Variable) × List (F × Variable) × List (F × Variable))
  deriving DecidableEq

/-- Allocation `cs.new_input_variable(|| ...)`. -/
def newInputVariable {F : Type} (s : SynthState F) (v : F) : SynthState F :=
  { s with instVals := s.instVals ++ [v] }

/-- Allocation `cs.new_witness_variable(|| ...)`. -/
def newWitnessVariable {F : Type} (s : SynthState F) (v : F) : SynthState F :=
  { s with witVals := s.witVals ++ [v] }

/-- Enforcement `cs.enforce_constraint(a, b, c)`. -/
def enforceConstraint {F : Type} (s : SynthState F)
    (a b c : List (F × Variable)) : SynthState F :=
  { s with enforced := s.enforced ++ [(a, b, c)] }

/-- Value produced by the allocation closure for wire `i`:
`F::from(1u32)` without a witness, `w[i]` with one.  The out-of-bounds panic
of `w[i]` is modelled as `none`. -/
def witnessValue {F : Type} (ofN : Nat → F) (w : Option (List F)) (i : Nat) :
    Option F :=
  match w with
  | none => some (ofN 1)
  | some ws => ws.get? i

/-- One allocation loop of `generate_constraints`: allocate one variable per
listed wire index, aborting (panic) if any closure value is unavailable. -/
def allocLoop {F : Type} (fetch : Nat → Option F)
    (push : SynthState F → F → SynthState F) :
    List Nat → SynthState F → Option (SynthState F)
  | [], s => some s
  | i :: is, s =>
    match fetch i with
    | none => none
    | some v => allocLoop fetch push is (push s v)

/-- Index translation `make_index`: indices below `num_inputs` go to the
instance space at the same index, the rest to the witness space shifted down
by `num_inputs`. -/
def makeIndex (numInputs index : Nat) : Variable :=
  if index < numInputs then .Instance index else .Witness (index - numInputs)

/-- Linear-combination translation `make_lc`: fold over the sparse terms,
appending `(coeff, make_index index)` for each. -/
def makeLC {F : Type} (numInputs : Nat) (lcData : List (Nat × F)) :
    List (F × Variable) :=
  lcData.foldl (fun lc p => lc ++ [(p.2, makeIndex numInputs p.1)]) []

/-- Constraint translation: `make_lc` applied to each of A, B, C. -/
def translateConstraint {F : Type} (numInputs : Nat) (t : Constraints F) :
    List (F × Variable) × List (F × Variable) × List (F × Variable) :=
  (makeLC numInputs t.1, makeLC numInputs t.2.1, makeLC numInputs t.2.2)

/-- Synthesis `generate_constraints`: allocate the public variables for wire
indices `1 .. num_inputs`, then the private variables for `0 .. num_aux`, then
enforce every constraint in file order over the translated combinations.
`none` models a witness-indexing panic. -/
def CircomCircuit.generateConstraints {F : Type} (ofN : Nat → F)
    (c : CircomCircuit F) : Option (SynthState F) :=
  match allocLoop (fun i => witnessValue ofN c.witness i) newInputVariable
      (List.range' 1 (c.r1cs.num_inputs - 1)) ⟨[], [], []⟩ with
  | none => none
  | some s1 =>
    match allocLoop (fun i => witnessValue ofN c.witness (i + c.r1cs.num_inputs))
        newWitnessVariable (List.range c.r1cs.num_aux) s1 with
    | none => none
    | some s2 =>
      some (c.r1cs.constraints.foldl
        (fun s t => enforceConstraint s (makeLC c.r1cs.num_inputs t.1)
          (makeLC c.r1cs.num_inputs t.2.1) (makeLC c.r1cs.num_inputs t.2.2)) s2)

/-- Little-endian u32 encoding, for building test streams. -/
def u32le (v : Nat) : List Nat := leBytes 4 v

/-- Little-endian u64 encoding, for building test streams. -/
def u64le (v : Nat) : List Nat := leBytes 8 v

/-- Serialized header payload, inverse of `Header.new` on valid headers. -/
def encodeHeaderPayload (h : Header) : List Nat :=
  u32le h.field_size ++ h.prime_size ++ u32le h.n_wires ++ u32le h.n_pub_out ++
    u32le h.n_pub_in ++ u32le h.n_prv_in ++ u64le h.n_labels ++ u32le h.n_constraints

/-- Serialized terms of a sparse linear combination, from raw (index, value)
pairs as they appear in the file. -/
def encodeTerms : List (Nat × Nat) → List Nat
  | [] => []
  | (i, v) :: rest => u32le i ++ u32le v ++ encodeTerms rest

/-- Serialized sparse linear combination: term count then the terms. -/
def encodeVec (raw : List (Nat × Nat)) : List Nat :=
  u32le raw.length ++ encodeTerms raw

/-- Serialized constraint list: per constraint the three combinations A, B, C. -/
def encodeConstraintsRaw :
    List (List (Nat × Nat) × List (Nat × Nat) × List (Nat × Nat)) → List Nat
  | [] => []
  | (a, b, c) :: rest => encodeVec a ++ encodeVec b ++ encodeVec c ++ encodeConstraintsRaw rest

/-- Serialized section: type (u32), payload length (u64), payload. -/
def buildSection (t : Nat) (payload : List Nat) : List Nat :=
  u32le t ++ u64le payload.length ++ payload

/-- Serialized section sequence. -/
def buildSections : List (Nat × List Nat) → List Nat
  | [] => []
  | (t, p) :: rest => buildSection t p ++ buildSections rest

/-- Serialized file: magic, version 1, section count, sections. -/
def buildFile (secs : List (Nat × List Nat)) : List Nat :=
  magicBytes ++ u32le 1 ++ u32le secs.length ++ buildSections secs

theorem headerNew_ext {size : Nat} {s rem : List Nat} {hd : Header} (t : List Nat)
    (h : Header.new size s = .ok (hd, rem)) :
    Header.new size (s ++ t) = .ok (hd, rem ++ t) := by
  unfold Header.new at h ⊢
  cases h1 : readU32 s with
  | error e => rw [h1] at h; exact absurd h (by simp)
  | ok p1 =>
    obtain ⟨v1, s1⟩ := p1
    rw [h1] at h
    rw [readU32_ext t h1]
    simp only [bindE_ok] at h ⊢
    by_cases hv1 : v1 ≠ 4
    · rw [if_pos hv1] at h; exact absurd h (by simp)
    · rw [if_neg hv1] at h ⊢
      by_cases hsz : size ≠ 32 + v1
      · rw [if_pos hsz] at h; exact absurd h (by simp)
      · rw [if_neg hsz] at h ⊢
        cases h2 : readBytes v1 s1 with
        | error e => rw [h2] at h; exact absurd h (by simp)
        | ok p2 =>
          obtain ⟨pr, s2⟩ := p2
          rw [h2] at h
          rw [readBytes_ext t h2]
          simp only [bindE_ok] at h ⊢
          by_cases hpr : pr ≠ m31Bytes
          · rw [if_pos hpr] at h; exact absurd h (by simp)
          · rw [if_neg hpr] at h ⊢
            cases h3 : readU32 s2 with
            | error e => rw [h3] at h; exact absurd h (by simp)
            | ok pw =>
              obtain ⟨w, s3⟩ := pw
              rw [h3] at h
              rw [readU32_ext t h3]
              simp only [bindE_ok] at h ⊢
              cases h4 : readU32 s3 with
              | error e => rw [h4] at h; exact absurd h (by simp)
              | ok po =>
                obtain ⟨o, s4⟩ := po
                rw [h4] at h
                rw [readU32_ext t h4]
                simp only [bindE_ok] at h ⊢
                cases h5 : readU32 s4 with
                | error e => rw [h5] at h; exact absurd h (by simp)
                | ok pis =>
                  obtain ⟨i, s5⟩ := pis
                  rw [h5] at h
                  rw [readU32_ext t h5]
                  simp only [bindE_ok] at h ⊢
                  cases h6 : readU32 s5 with
                  | error e => rw [h6] at h; exact absurd h (by simp)
                  | ok pv =>
                    obtain ⟨v, s6⟩ := pv
                    rw [h6] at h
                    rw [readU32_ext t h6]
                    simp only [bindE_ok] at h ⊢
                    cases h7 : readU64 s6 with
                    | error e => rw [h7] at h; exact absurd h (by simp)
                    | ok pl =>
                      obtain ⟨l, s7⟩ := pl
                      rw [h7] at h
                      rw [readU64_ext t h7]
                      simp only [bindE_ok] at h ⊢
                      cases h8 : readU32 s7 with
                      | error e => rw [h8] at h; exact absurd h (by simp)
                      | ok pc =>
                        obtain ⟨c, s8⟩ := pc
                        rw [h8] at h
                        rw [readU32_ext t h8]
                        simp only [bindE_ok] at h ⊢
                        simp only [Except.ok.injEq, Prod.mk.injEq] at h
                        rw [← h.1, ← h.2]

theorem readTerms_ext {F : Type} (ofN : Nat → F) {n : Nat} {s rem : List Nat}
    {out : List (Nat × F)} (t : List Nat)
    (h : readTerms ofN n s = .ok (out, rem)) :
    readTerms ofN n (s ++ t) = .ok (out, rem ++ t) := by
  induction n generalizing s out rem with
  | zero =>
    simp only [readTerms, Except.ok.injEq, Prod.mk.injEq] at h ⊢
    exact ⟨h.1, by rw [h.2]⟩
  | succ n ih =>
    unfold readTerms at h ⊢
    cases h1 : readU32 s with
    | error e => rw [h1] at h; exact absurd h (by simp)
    | ok p1 =>
      obtain ⟨idx, s1⟩ := p1
      rw [h1] at h
      rw [readU32_ext t h1]
      simp only [bindE_ok] at h ⊢
      cases h2 : readU32 s1 with
      | error e => rw [h2] at h; exact absurd h (by simp)
      | ok p2 =>
        obtain ⟨v, s2⟩ := p2
        rw [h2] at h
        rw [readU32_ext t h2]
        simp only [bindE_ok] at h ⊢
        cases h3 : readTerms ofN n s2 with
        | error e => rw [h3] at h; exact absurd h (by simp)
        | ok p3 =>
          obtain ⟨rs, s3⟩ := p3
          rw [h3] at h
          rw [ih h3]
          simp only [bindE_ok] at h ⊢
          simp only [Except.ok.injEq, Prod.mk.injEq] at h
          rw [← h.1, ← h.2]

theorem readConstraintVec_ext {F : Type} (ofN : Nat → F) {s rem : List Nat}
    {out : List (Nat × F)} (t : List Nat)
    (h : readConstraintVec ofN s = .ok (out, rem)) :
    readConstraintVec ofN (s ++ t) = .ok (out, rem ++ t) := by
  unfold readConstraintVec at h ⊢
  cases h1 : readU32 s with
  | error e => rw [h1] at h; exact absurd h (by simp)
  | ok p1 =>
    obtain ⟨n, s1⟩ := p1
    rw [h1] at h
    rw [readU32_ext t h1]
    simp only [bindE_ok] at h ⊢
    exact readTerms_ext ofN t h

theorem readConstraintsLoop_ext {F : Type} (ofN : Nat → F) {n : Nat}
    {s rem : List Nat} {out : List (Constraints F)} (t : List Nat)
    (h : readConstraintsLoop ofN n s = .ok (out, rem)) :
    readConstraintsLoop ofN n (s ++ t) = .ok (out, rem ++ t) := by
  induction n generalizing s out rem with
  | zero =>
    simp only [readConstraintsLoop, Except.ok.injEq, Prod.mk.injEq] at h ⊢
    exact ⟨h.1, by rw [h.2]⟩
  | succ n ih =>
    unfold readConstraintsLoop at h ⊢
    cases h1 : readConstraintVec ofN s with
    | error e => rw [h1] at h; exact absurd h (by simp)
    | ok p1 =>
      obtain ⟨a, s1⟩ := p1
      rw [h1] at h
      rw [readConstraintVec_ext ofN t h1]
      simp only [bindE_ok] at h ⊢
      cases h2 : readConstraintVec ofN s1 with
      | error e => rw [h2] at h; exact absurd h (by simp)
      | ok p2 =>
        obtain ⟨b, s2⟩ := p2
        rw [h2] at h
        rw [readConstraintVec_ext ofN t h2]
        simp only [bindE_ok] at h ⊢
        cases h3 : readConstraintVec ofN s2 with
        | error e => rw [h3] at h; exact absurd h (by simp)
        | ok p3 =>
          obtain ⟨c, s3⟩ := p3
          rw [h3] at h
          rw [readConstraintVec_ext ofN t h3]
          simp only [bindE_ok] at h ⊢
          cases h4 : readConstraintsLoop ofN n s3 with
          | error e => rw [h4] at h; exact absurd h (by simp)
          | ok p4 =>
            obtain ⟨rs, s4⟩ := p4
            rw [h4] at h
            rw [ih h4]
            simp only [bindE_ok] at h ⊢
            simp only [Except.ok.injEq, Prod.mk.injEq] at h
            rw [← h.1, ← h.2]

theorem readConstraintsLoop_length {F : Type} (ofN : Nat → F) {n : Nat}
    {s rem : List Nat} {out : List (Constraints F)}
    (h : readConstraintsLoop ofN n s = .ok (out, rem)) : out.length = n := by
  induction n generalizing s out rem with
  | zero =>
    simp only [readConstraintsLoop, Except.ok.injEq, Prod.mk.injEq] at h
    rw [← h.1]
    rfl
  | succ n ih =>
    unfold readConstraintsLoop at h
    cases h1 : readConstraintVec ofN s with
    | error e => rw [h1] at h; exact absurd h (by simp)
    | ok p1 =>
      rw [h1] at h
      simp only [bindE_ok] at h
      cases h2 : readConstraintVec ofN p1.2 with
      | error e => rw [h2] at h; exact absurd h (by simp)
      | ok p2 =>
        rw [h2] at h
        simp only [bindE_ok] at h
        cases h3 : readConstraintVec ofN p2.2 with
        | error e => rw [h3] at h; exact absurd h (by simp)
        | ok p3 =>
          rw [h3] at h
          simp only [bindE_ok] at h
          cases h4 : readConstraintsLoop ofN n p3.2 with
          | error e => rw [h4] at h; exact absurd h (by simp)
          | ok p4 =>
            rw [h4] at h
            simp only [bindE_ok, Except.ok.injEq, Prod.mk.injEq] at h
            rw [← h.1]
            simp [ih h4]

theorem headerNew_encode (hd : Header) (rest : List Nat)
    (hfs : hd.field_size = 4) (hpr : hd.prime_size = m31Bytes)
    (hw : hd.n_wires < 4294967296) (ho : hd.n_pub_out < 4294967296)
    (hi : hd.n_pub_in < 4294967296) (hv : hd.n_prv_in < 4294967296)
    (hl : hd.n_labels < 18446744073709551616) (hc : hd.n_constraints < 4294967296) :
    Header.new 36 (encodeHeaderPayload hd ++ rest) = .ok (hd, rest) := by
  obtain ⟨fs, pr, w, o, i, v, l, c⟩ := hd
  simp only at hfs hpr hw ho hi hv hl hc
  subst hfs hpr
  unfold Header.new encodeHeaderPayload u32le u64le
  simp only [List.append_assoc]
  rw [readU32_encode (by norm_num)]
  simp only [bindE_ok]
  rw [if_neg (by decide : ¬((4 : Nat) ≠ 4)), if_neg (by decide : ¬((36 : Nat) ≠ 32 + 4))]
  rw [readBytes_exact _ (by decide : m31Bytes.length = 4)]
  simp only [bindE_ok]
  rw [if_neg (by decide : ¬(m31Bytes ≠ m31Bytes))]
  rw [readU32_encode hw]
  simp only [bindE_ok]
  rw [readU32_encode ho]
  simp only [bindE_ok]
  rw [readU32_encode hi]
  simp only [bindE_ok]
  rw [readU32_encode hv]
  simp only [bindE_ok]
  rw [readU64_encode hl]
  simp only [bindE_ok]
  rw [readU32_encode hc]
  simp only [bindE_ok]

/-- Interpretation of raw (index, value) pairs as parsed terms: the index is
kept and the raw 32-bit value goes through `F::from`. -/
def interpTerms {F : Type} (ofN : Nat → F) (l : List (Nat × Nat)) : List (Nat × F) :=
  l.map (fun p => (p.1, ofN p.2))

/-- Interpretation of a whole raw constraint triple. -/
def interpConstraint {F : Type} (ofN : Nat → F)
    (t : List (Nat × Nat) × List (Nat × Nat) × List (Nat × Nat)) : Constraints F :=
  (interpTerms ofN t.1, interpTerms ofN t.2.1, interpTerms ofN t.2.2)

/-- In-range condition for the raw terms of one sparse linear combination:
the term count and every index and value fit in a u32. -/
def termsOk (l : List (Nat × Nat)) : Prop :=
  l.length < 4294967296 ∧ ∀ p ∈ l, p.1 < 4294967296 ∧ p.2 < 4294967296

/-- In-range condition for a whole raw constraint list. -/
def rawOk (raws : List (List (Nat × Nat) × List (Nat × Nat) × List (Nat × Nat))) :
    Prop :=
  ∀ t ∈ raws, termsOk t.1 ∧ termsOk t.2.1 ∧ termsOk t.2.2

instance : DecidablePred termsOk := by
  intro l
  unfold termsOk
  infer_instance

instance : DecidablePred rawOk := by
  intro l
  unfold rawOk
  infer_instance

theorem readTerms_encode {F : Type} (ofN : Nat → F) (raw : List (Nat × Nat))
    (rest : List Nat) (h : ∀ p ∈ raw, p.1 < 4294967296 ∧ p.2 < 4294967296) :
    readTerms ofN raw.length (encodeTerms raw ++ rest) =
      .ok (interpTerms ofN raw, rest) := by
  induction raw with
  | nil => simp [readTerms, encodeTerms, interpTerms]
  | cons p raw ih =>
    obtain ⟨idx, v⟩ := p
    have hp := h (idx, v) (by simp)
    unfold encodeTerms u32le
    simp only [List.length_cons, List.append_assoc]
    unfold readTerms
    rw [readU32_encode hp.1]
    simp only [bindE_ok]
    rw [readU32_encode hp.2]
    simp only [bindE_ok]
    rw [ih (fun q hq => h q (by simp [hq]))]
    simp only [bindE_ok, interpTerms, List.map_cons]

theorem readConstraintVec_encode {F : Type} (ofN : Nat → F)
    (raw : List (Nat × Nat)) (rest : List Nat) (h : termsOk raw) :
    readConstraintVec ofN (encodeVec raw ++ rest) = .ok (interpTerms ofN raw, rest) := by
  unfold readConstraintVec encodeVec u32le
  simp only [List.append_assoc]
  rw [readU32_encode h.1]
  simp only [bindE_ok]
  exact readTerms_encode ofN raw rest h.2

theorem readConstraintsLoop_encode {F : Type} (ofN : Nat → F)
    (raws : List (List (Nat × Nat) × List (Nat × Nat) × List (Nat × Nat)))
    (rest : List Nat) (h : rawOk raws) :
    readConstraintsLoop ofN raws.length (encodeConstraintsRaw raws ++ rest) =
      .ok (raws.map (interpConstraint ofN), rest) := by
  induction raws with
  | nil => simp [readConstraintsLoop, encodeConstraintsRaw]
  | cons t raws ih =>
    obtain ⟨a, b, c⟩ := t
    have ht := h (a, b, c) (by simp)
    unfold encodeConstraintsRaw
    simp only [List.length_cons, List.append_assoc]
    unfold readConstraintsLoop
    rw [readConstraintVec_encode ofN a _ ht.1]
    simp only [bindE_ok]
    rw [readConstraintVec_encode ofN b _ ht.2.1]
    simp only [bindE_ok]
    rw [readConstraintVec_encode ofN c _ ht.2.2]
    simp only [bindE_ok]
    rw [ih (fun q hq => h q (by simp [hq]))]
    simp only [bindE_ok, List.map_cons, interpConstraint]

/-- Values produced by the allocation closure over a list of wire indices:
`none` as soon as one closure panics. -/
def fetchAll {F : Type} (fetch : Nat → Option F) : List Nat → Option (List F)
  | [] => some []
  | i :: is =>
    match fetch i with
    | none => none
    | some v =>
      match fetchAll fetch is with
      | none => none
      | some vs => some (v :: vs)

theorem allocLoop_eq {F : Type} (fetch : Nat → Option F)
    (push : SynthState F → F → SynthState F) (l : List Nat) (s : SynthState F) :
    allocLoop fetch push l s = (fetchAll fetch l).map (fun vs => vs.foldl push s) := by
  induction l generalizing s with
  | nil => simp [allocLoop, fetchAll]
  | cons i is ih =>
    cases hf : fetch i with
    | none => simp [allocLoop, fetchAll, hf]
    | some v =>
      simp only [allocLoop, fetchAll, hf, ih]
      cases fetchAll fetch is <;> simp

theorem foldl_newInputVariable {F : Type} (vs : List F) (s : SynthState F) :
    vs.foldl newInputVariable s = ⟨s.instVals ++ vs, s.witVals, s.enforced⟩ := by
  induction vs generalizing s with
  | nil => simp
  | cons v vs ih => simp [newInputVariable, ih]

theorem foldl_newWitnessVariable {F : Type} (vs : List F) (s : SynthState F) :
    vs.foldl newWitnessVariable s = ⟨s.instVals, s.witVals ++ vs, s.enforced⟩ := by
  induction vs generalizing s with
  | nil => simp
  | cons v vs ih => simp [newWitnessVariable, ih]

theorem foldl_enforceConstraint {F : Type} (cs : List (Constraints F)) (n : Nat)
    (s : SynthState F) :
    cs.foldl (fun s t => enforceConstraint s (makeLC n t.1) (makeLC n t.2.1)
        (makeLC n t.2.2)) s =
      ⟨s.instVals, s.witVals, s.enforced ++ cs.map (translateConstraint n)⟩ := by
  induction cs generalizing s with
  | nil => simp
  | cons t cs ih =>
    rw [List.foldl_cons, ih]
    simp [enforceConstraint, translateConstraint]

theorem generateConstraints_eq {F : Type} (ofN : Nat → F) (c : CircomCircuit F) :
    c.generateConstraints ofN =
      match fetchAll (fun i => witnessValue ofN c.witness i)
          (List.range' 1 (c.r1cs.num_inputs - 1)) with
      | none => none
      | some vi =>
        match fetchAll (fun i => witnessValue ofN c.witness (i + c.r1cs.num_inputs))
            (List.range c.r1cs.num_aux) with
        | none => none
        | some vw =>
          some ⟨vi, vw, c.r1cs.constraints.map (translateConstraint c.r1cs.num_inputs)⟩ := by
  unfold CircomCircuit.generateConstraints
  simp only [allocLoop_eq]
  cases h1 : fetchAll (fun i => witnessValue ofN c.witness i)
      (List.range' 1 (c.r1cs.num_inputs - 1)) with
  | none => rfl
  | some vi =>
    cases h2 : fetchAll (fun i => witnessValue ofN c.witness (i + c.r1cs.num_inputs))
        (List.range c.r1cs.num_aux) with
    | none =>
      simp [foldl_newInputVariable]
    | some vw =>
      simp [foldl_newInputVariable, foldl_newWitnessVariable, foldl_enforceConstraint]

theorem fetchAll_const {F : Type} (v : F) (l : List Nat) :
    fetchAll (fun _ => some v) l = some (l.map (fun _ => v)) := by
  induction l with
  | nil => rfl
  | cons i is ih => simp [fetchAll, ih]

theorem fetchAll_get?_inv {F : Type} (ws : List F) (f : Nat → Nat) (d : F) :
    ∀ (l : List Nat) (vs : List F), fetchAll (fun i => ws.get? (f i)) l = some vs →
      vs = l.map (fun i => ws.getD (f i) d) := by
  intro l
  induction l with
  | nil => intro vs h; simp [fetchAll] at h; simp [← h]
  | cons i is ih =>
    intro vs h
    simp only [fetchAll] at h
    cases hg : ws.get? (f i) with
    | none => rw [hg] at h; simp at h
    | some v =>
      rw [hg] at h
      cases hr : fetchAll (fun i => ws.get? (f i)) is with
      | none => rw [hr] at h; simp at h
      | some vs' =>
        rw [hr] at h
        simp only [Option.some.injEq] at h
        subst h
        have hd : ws.getD (f i) d = v := by
          rw [List.getD_eq_getElem?_getD, ← List.get?_eq_getElem?, hg]
          rfl
        rw [List.map_cons, ← ih vs' hr, hd]

theorem fetchAll_isSome {F : Type} (fetch : Nat → Option F) :
    ∀ l : List Nat, (∀ i ∈ l, fetch i ≠ none) →
      ∃ vs, fetchAll fetch l = some vs := by
  intro l
  induction l with
  | nil => intro _; exact ⟨[], rfl⟩
  | cons i is ih =>
    intro h
    obtain ⟨vs, hvs⟩ := ih (fun j hj => h j (by simp [hj]))
    cases hg : fetch i with
    | none => exact absurd hg (h i (by simp))
    | some v =>
      refine ⟨v :: vs, ?_⟩
      simp only [fetchAll]
      rw [hg, hvs]

theorem fetchAll_none {F : Type} (fetch : Nat → Option F) :
    ∀ l : List Nat, (∃ i ∈ l, fetch i = none) → fetchAll fetch l = none := by
  intro l
  induction l with
  | nil => intro h; simp at h
  | cons i is ih =>
    intro h
    simp only [fetchAll]
    rcases h with ⟨j, hj, hge⟩
    rcases List.mem_cons.mp hj with hji | hjs
    · subst hji
      rw [hge]
    · cases hg : fetch i with
      | none => rfl
      | some v => rw [ih ⟨j, hjs, hge⟩]

/-- Value the specification assigns to the allocation of wire `i`: the
multiplicative identity without a witness, `witness[i]` with one (stated with
a default that is never reached at in-bounds indices). -/
def wireVal {F : Type} (ofN : Nat → F) (w : Option (List F)) (i : Nat) : F :=
  match w with
  | none => ofN 1
  | some ws => ws.getD i (ofN 1)

theorem makeLC_eq_map {F : Type} (n : Nat) (l : List (Nat × F)) :
    makeLC n l = l.map (fun p => (p.2, makeIndex n p.1)) := by
  have aux : ∀ (l : List (Nat × F)) (acc : List (F × Variable)),
      l.foldl (fun lc p => lc ++ [(p.2, makeIndex n p.1)]) acc =
        acc ++ l.map (fun p => (p.2, makeIndex n p.1)) := by
    intro l
    induction l with
    | nil => intro acc; simp
    | cons p l ih => intro acc; simp [ih]
  simpa using aux l []

/-- C1: for every R1CSFile whose header satisfies
`wire_count = 1 + public_in + public_out + aux_count`, the derived R1CS has
`num_inputs = 1 + n_pub_in + n_pub_out`, `num_variables = n_wires`,
`num_aux = num_variables - num_inputs` (hence `num_inputs + num_aux =
num_variables`), and carries the file's constraint list unchanged. -/
theorem R1CS.ofFile_spec {F : Type} (f : R1CSFile F) (aux : Nat)
    (hpi : f.header.n_pub_in < 4294967296) (hpo : f.header.n_pub_out < 4294967296)
    (hw : f.header.n_wires < 4294967296)
    (h : f.header.n_wires = 1 + f.header.n_pub_in + f.header.n_pub_out + aux) :
    (R1CS.ofFile f).num_inputs = 1 + f.header.n_pub_in + f.header.n_pub_out ∧
    (R1CS.ofFile f).num_variables = f.header.n_wires ∧
    (R1CS.ofFile f).num_aux = (R1CS.ofFile f).num_variables - (R1CS.ofFile f).num_inputs ∧
    (R1CS.ofFile f).num_inputs + (R1CS.ofFile f).num_aux = (R1CS.ofFile f).num_variables ∧
    (R1CS.ofFile f).constraints = f.constraints := by
  have hni : (R1CS.ofFile f).num_inputs =
      (1 + f.header.n_pub_in + f.header.n_pub_out) % 4294967296 := rfl
  have hnv : (R1CS.ofFile f).num_variables = f.header.n_wires := rfl
  have hna : (R1CS.ofFile f).num_aux =
      (f.header.n_wires + 18446744073709551616 -
        (1 + f.header.n_pub_in + f.header.n_pub_out) % 4294967296) %
        18446744073709551616 := rfl
  refine ⟨?_, hnv, ?_, ?_, rfl⟩
  · rw [hni]; omega
  · rw [hna, hni, hnv]; omega
  · rw [hna, hni, hnv]; omega

/-- File used to instantiate C1: one public output, one public input, one
auxiliary wire. -/
def fileC1 : R1CSFile Nat := ⟨1, ⟨4, m31Bytes, 4, 1, 1, 0, 4, 0⟩, []⟩

/-- C1 witness: the counts of `fileC1`, by the theorem at `aux_count = 1`. -/
theorem R1CS.ofFile_spec_witness :
    (R1CS.ofFile fileC1).num_inputs = 1 + fileC1.header.n_pub_in + fileC1.header.n_pub_out ∧
    (R1CS.ofFile fileC1).num_variables = fileC1.header.n_wires ∧
    (R1CS.ofFile fileC1).num_aux =
      (R1CS.ofFile fileC1).num_variables - (R1CS.ofFile fileC1).num_inputs ∧
    (R1CS.ofFile fileC1).num_inputs + (R1CS.ofFile fileC1).num_aux =
      (R1CS.ofFile fileC1).num_variables ∧
    (R1CS.ofFile fileC1).constraints = fileC1.constraints :=
  R1CS.ofFile_spec fileC1 1 (by decide) (by decide) (by decide) (by decide)

/-- File on which the u32 sum `1 + n_pub_in + n_pub_out` wraps: both public
counts are `2^31`, one wire. -/
def fileC9w : R1CSFile Nat := ⟨1, ⟨4, m31Bytes, 1, 2147483648, 2147483648, 0, 1, 0⟩, []⟩

/-- C9 counterexample: `fileC9w` violates the claim's precondition
`n_wires ≥ 1 + n_pub_in + n_pub_out` (read over unbounded integers), yet the
subtraction does not underflow: the u32 sum wraps to 1 before the usize cast,
so `num_inputs = 1` and `num_aux = 0 ≤ num_variables`, not the wrapped value
near 2^64 the claim predicts for every violating header. -/
theorem R1CS.ofFile_cex :
    fileC9w.header.n_wires < 1 + fileC9w.header.n_pub_in + fileC9w.header.n_pub_out ∧
    (R1CS.ofFile fileC9w).num_inputs = 1 ∧
    (R1CS.ofFile fileC9w).num_aux = 0 ∧
    (R1CS.ofFile fileC9w).num_aux ≤ (R1CS.ofFile fileC9w).num_variables := by
  decide

/-- C9 amended: the conversion validates nothing: it is total, `num_inputs` is
the wrapping u32 sum `(1 + n_pub_in + n_pub_out) mod 2^32`, and `num_aux` is
an unchecked usize subtraction.  When `num_inputs ≤ n_wires` it is the exact
difference; when the header violates that (wrapped) precondition it wraps
around 2^64 (release-mode usize underflow; no error value exists in the
conversion's type), leaving `num_aux` larger than `num_variables`. -/
theorem R1CS.ofFile_unchecked {F : Type} (f : R1CSFile F)
    (hw : f.header.n_wires < 4294967296) :
    ((1 + f.header.n_pub_in + f.header.n_pub_out) % 4294967296 ≤ f.header.n_wires →
      (R1CS.ofFile f).num_aux =
        f.header.n_wires - (1 + f.header.n_pub_in + f.header.n_pub_out) % 4294967296) ∧
    (f.header.n_wires < (1 + f.header.n_pub_in + f.header.n_pub_out) % 4294967296 →
      (R1CS.ofFile f).num_aux =
        18446744073709551616 -
          ((1 + f.header.n_pub_in + f.header.n_pub_out) % 4294967296 -
            f.header.n_wires) ∧
      (R1CS.ofFile f).num_variables < (R1CS.ofFile f).num_aux) := by
  have hnv : (R1CS.ofFile f).num_variables = f.header.n_wires := rfl
  have hna : (R1CS.ofFile f).num_aux =
      (f.header.n_wires + 18446744073709551616 -
        (1 + f.header.n_pub_in + f.header.n_pub_out) % 4294967296) %
        18446744073709551616 := rfl
  constructor
  · intro h; rw [hna]; omega
  · intro h
    refine ⟨by rw [hna]; omega, ?_⟩
    rw [hna, hnv]
    omega

/-- File used to instantiate C9: a header violating the wire-count invariant
without u32 wrap (`n_wires = 1` but one public input). -/
def fileC9 : R1CSFile Nat := ⟨1, ⟨4, m31Bytes, 1, 0, 1, 0, 1, 0⟩, []⟩

/-- C9 witness: on `fileC9` the subtraction underflows to `2^64 - 1`. -/
theorem R1CS.ofFile_unchecked_witness :
    fileC9.header.n_wires <
      (1 + fileC9.header.n_pub_in + fileC9.header.n_pub_out) % 4294967296 ∧
    (R1CS.ofFile fileC9).num_aux =
      18446744073709551616 -
        ((1 + fileC9.header.n_pub_in + fileC9.header.n_pub_out) % 4294967296 -
          fileC9.header.n_wires) ∧
    (R1CS.ofFile fileC9).num_variables < (R1CS.ofFile fileC9).num_aux :=
  ⟨by decide, (R1CS.ofFile_unchecked fileC9 (by decide)).2 (by decide)⟩

/-- Circuit with `num_inputs = 0` and a present witness, the corner on which
C4 as stated fails. -/
def c4cex : CircomCircuit Nat := ⟨⟨0, 0, 0, []⟩, some [7]⟩

/-- C4 counterexample: with `num_inputs = 0` and witness `[7]` (whose length 1
satisfies the claim's only precondition `num_inputs ≤ length`), the Rust slice
`w[1..0]` panics, so `get_public_inputs` does not return the slice the claim
promises: the model yields the panic value `none`, not a normal return. -/
theorem getPublicInputs_cex :
    c4cex.witness = some [7] ∧
    c4cex.r1cs.num_inputs ≤ ([7] : List Nat).length ∧
    c4cex.getPublicInputs = none := ⟨rfl, by decide, rfl⟩

/-- C4 amended: `get_public_inputs` is `None` without a witness; with a
witness `w` such that `1 ≤ num_inputs ≤ w.length` it returns exactly the
slice `w[1 .. num_inputs]` (whose element `j` is `w[1 + j]` and whose length
is `num_inputs - 1`), skipping the constant wire. -/
theorem CircomCircuit.getPublicInputs_spec {F : Type} (c : CircomCircuit F) :
    (c.witness = none → c.getPublicInputs = some none) ∧
    (∀ w, c.witness = some w → 1 ≤ c.r1cs.num_inputs → c.r1cs.num_inputs ≤ w.length →
      c.getPublicInputs = some (some ((w.drop 1).take (c.r1cs.num_inputs - 1))) ∧
      ((w.drop 1).take (c.r1cs.num_inputs - 1)).length = c.r1cs.num_inputs - 1 ∧
      (∀ j, j < c.r1cs.num_inputs - 1 →
        ((w.drop 1).take (c.r1cs.num_inputs - 1)).get? j = w.get? (1 + j))) := by
  constructor
  · intro h
    simp only [CircomCircuit.getPublicInputs, h]
  · intro w hw h1 h2
    refine ⟨?_, ?_, ?_⟩
    · simp only [CircomCircuit.getPublicInputs, hw]
      rw [if_pos ⟨h1, h2⟩]
    · rw [List.length_take, List.length_drop]
      omega
    · intro j hj
      rw [List.get?_take hj, List.get?_drop]

/-- Circuit with two public wires beyond the constant and a full witness, used
to instantiate C4. -/
def c4wit : CircomCircuit Nat := ⟨⟨3, 2, 5, []⟩, some [1, 10, 20, 30, 40]⟩

/-- C4 witness: on witness `[1, 10, 20, 30, 40]` with `num_inputs = 3` the
accessor returns `[10, 20]`. -/
theorem CircomCircuit.getPublicInputs_spec_witness :
    c4wit.getPublicInputs = some (some [10, 20]) := by
  have h := (CircomCircuit.getPublicInputs_spec c4wit).2 [1, 10, 20, 30, 40] rfl
    (by decide) (by decide)
  rw [h.1]
  rfl

/-- Circuit on which C10's "any shorter witness panics" fails: the witness is
empty and shorter than `num_variables = 1`, but with `num_inputs = 1` and
`num_aux = 0` both allocation loops are empty, so nothing is indexed. -/
def c10cex : CircomCircuit Nat := ⟨⟨1, 0, 1, []⟩, some []⟩

/-- C10 counterexample: a witness shorter than `num_inputs + num_aux` on which
`generate_constraints` does not panic (it succeeds with no allocations). -/
theorem witnessAccess_cex :
    c10cex.witness = some [] ∧
    ([] : List Nat).length < c10cex.r1cs.num_inputs + c10cex.r1cs.num_aux ∧
    c10cex.generateConstraints id = some ⟨[], [], []⟩ := ⟨rfl, by decide, rfl⟩

/-- C10 amended: with a witness of length at least `num_inputs + num_aux`,
`generate_constraints` performs no out-of-bounds access, and with additionally
`1 ≤ num_inputs` neither does `get_public_inputs`; a witness shorter than
`num_inputs` makes `get_public_inputs` panic, and a witness shorter than
`num_inputs + num_aux` makes `generate_constraints` panic except in the
access-free case `num_inputs ≤ 1` and `num_aux = 0`. -/
theorem witnessAccess_bounds {F : Type} (ofN : Nat → F) (c : CircomCircuit F)
    (w : List F) (hw : c.witness = some w) :
    (1 ≤ c.r1cs.num_inputs → c.r1cs.num_inputs ≤ w.length →
      c.getPublicInputs ≠ none) ∧
    (c.r1cs.num_inputs + c.r1cs.num_aux ≤ w.length →
      c.generateConstraints ofN ≠ none) ∧
    (w.length < c.r1cs.num_inputs → c.getPublicInputs = none) ∧
    (w.length < c.r1cs.num_inputs + c.r1cs.num_aux →
      ¬(c.r1cs.num_inputs ≤ 1 ∧ c.r1cs.num_aux = 0) →
      c.generateConstraints ofN = none) := by
  refine ⟨?_, ?_, ?_, ?_⟩
  · intro h1 h2
    simp only [CircomCircuit.getPublicInputs, hw]
    rw [if_pos ⟨h1, h2⟩]
    simp
  · intro hlen
    rw [generateConstraints_eq]
    simp only [hw, witnessValue]
    obtain ⟨vi, hvi⟩ := fetchAll_isSome (fun i => w.get? i)
      (List.range' 1 (c.r1cs.num_inputs - 1))
      (fun i hi => by
        have hm := List.mem_range'_1.mp hi
        intro hcon
        have := List.get?_eq_none.mp hcon
        omega)
    obtain ⟨vw, hvw⟩ := fetchAll_isSome (fun i => w.get? (i + c.r1cs.num_inputs))
      (List.range c.r1cs.num_aux)
      (fun i hi => by
        have hm := List.mem_range.mp hi
        intro hcon
        have := List.get?_eq_none.mp hcon
        omega)
    rw [hvi, hvw]
    simp
  · intro hshort
    simp only [CircomCircuit.getPublicInputs, hw]
    rw [if_neg (by omega)]
  · intro hshort hne
    rw [generateConstraints_eq]
    simp only [hw, witnessValue]
    by_cases haux : 1 ≤ c.r1cs.num_aux
    · have hvw : fetchAll (fun i => w.get? (i + c.r1cs.num_inputs))
          (List.range c.r1cs.num_aux) = none := by
        apply fetchAll_none
        refine ⟨c.r1cs.num_aux - 1, List.mem_range.mpr (by omega), ?_⟩
        exact List.get?_eq_none.mpr (by omega)
      rw [hvw]
      cases fetchAll (fun i => w.get? i) (List.range' 1 (c.r1cs.num_inputs - 1)) <;> rfl
    · have hni : 2 ≤ c.r1cs.num_inputs := by omega
      have hvi : fetchAll (fun i => w.get? i)
          (List.range' 1 (c.r1cs.num_inputs - 1)) = none := by
        apply fetchAll_none
        refine ⟨c.r1cs.num_inputs - 1, List.mem_range'_1.mpr (by omega), ?_⟩
        exact List.get?_eq_none.mpr (by omega)
      rw [hvi]

/-- Circuit with full witness used to instantiate C10. -/
def c10wit : CircomCircuit Nat := ⟨⟨2, 1, 3, []⟩, some [1, 5, 9]⟩

/-- C10 witness: on a length-3 witness with `num_inputs = 2`, `num_aux = 1`,
neither operation panics. -/
theorem witnessAccess_bounds_witness :
    c10wit.getPublicInputs ≠ none ∧ c10wit.generateConstraints id ≠ none :=
  ⟨(witnessAccess_bounds id c10wit [1, 5, 9] rfl).1 (by decide) (by decide),
    (witnessAccess_bounds id c10wit [1, 5, 9] rfl).2.1 (by decide)⟩

/-- C2: synthesis allocates, in order, one public variable per wire index in
`1 .. num_inputs` (index 0 never allocated) valued `witness[i]` with a witness
present and the multiplicative identity otherwise, then one private variable
per index in `0 .. num_aux` valued `witness[num_inputs + i]` or the same
placeholder; without a witness synthesis always succeeds. -/
theorem CircomCircuit.generateConstraints_allocation {F : Type} (ofN : Nat → F)
    (c : CircomCircuit F) :
    (c.witness = none → ∃ s, c.generateConstraints ofN = some s) ∧
    (∀ s, c.generateConstraints ofN = some s →
      s.instVals = (List.range' 1 (c.r1cs.num_inputs - 1)).map (wireVal ofN c.witness) ∧
      s.witVals = (List.range c.r1cs.num_aux).map
        (fun i => wireVal ofN c.witness (i + c.r1cs.num_inputs)) ∧
      s.instVals.length = c.r1cs.num_inputs - 1 ∧
      s.witVals.length = c.r1cs.num_aux) := by
  constructor
  · intro hnone
    rw [generateConstraints_eq]
    simp only [hnone, witnessValue]
    rw [fetchAll_const, fetchAll_const]
    exact ⟨_, rfl⟩
  · intro s hs
    rw [generateConstraints_eq] at hs
    cases h1 : fetchAll (fun i => witnessValue ofN c.witness i)
        (List.range' 1 (c.r1cs.num_inputs - 1)) with
    | none => rw [h1] at hs; exact absurd hs (by simp)
    | some vi =>
      rw [h1] at hs
      cases h2 : fetchAll (fun i => witnessValue ofN c.witness (i + c.r1cs.num_inputs))
          (List.range c.r1cs.num_aux) with
      | none => rw [h2] at hs; exact absurd hs (by simp)
      | some vw =>
        rw [h2] at hs
        simp only [Option.some.injEq] at hs
        have hvi : vi = (List.range' 1 (c.r1cs.num_inputs - 1)).map
            (wireVal ofN c.witness) := by
          cases hwo : c.witness with
          | none =>
            rw [hwo] at h1
            simp only [witnessValue] at h1
            rw [fetchAll_const] at h1
            simp only [Option.some.injEq] at h1
            rw [← h1]
            rfl
          | some ws =>
            rw [hwo] at h1
            simp only [witnessValue] at h1
            have := fetchAll_get?_inv ws (fun i => i) (ofN 1)
              (List.range' 1 (c.r1cs.num_inputs - 1)) vi h1
            rw [this]
            rfl
        have hvw : vw = (List.range c.r1cs.num_aux).map
            (fun i => wireVal ofN c.witness (i + c.r1cs.num_inputs)) := by
          cases hwo : c.witness with
          | none =>
            rw [hwo] at h2
            simp only [witnessValue] at h2
            rw [fetchAll_const] at h2
            simp only [Option.some.injEq] at h2
            rw [← h2]
            rfl
          | some ws =>
            rw [hwo] at h2
            simp only [witnessValue] at h2
            have := fetchAll_get?_inv ws (fun i => i + c.r1cs.num_inputs) (ofN 1)
              (List.range c.r1cs.num_aux) vw h2
            rw [this]
            rfl
        refine ⟨?_, ?_, ?_, ?_⟩
        · rw [← hs]; exact hvi
        · rw [← hs]; exact hvw
        · rw [← hs]
          show vi.length = c.r1cs.num_inputs - 1
          rw [hvi, List.length_map, List.length_range']
        · rw [← hs]
          show vw.length = c.r1cs.num_aux
          rw [hvw, List.length_map, List.length_range]

/-- Circuit used to instantiate C2: `num_inputs = 3`, `num_aux = 2`, no
witness. -/
def c2wit : CircomCircuit Nat := ⟨⟨3, 2, 5, []⟩, none⟩

/-- Synthesis trace of `c2wit`: two public and two private allocations, all
with the placeholder value 1. -/
def c2state : SynthState Nat := ⟨[1, 1], [1, 1], []⟩

/-- C2 witness: without a witness and with `num_inputs = 3`, `num_aux = 2`,
exactly 2 public and 2 private variables are allocated. -/
theorem CircomCircuit.generateConstraints_allocation_witness :
    c2wit.generateConstraints id = some c2state ∧
    c2state.instVals.length = 2 ∧ c2state.witVals.length = 2 := by
  have hgen : c2wit.generateConstraints id = some c2state := rfl
  have h := (CircomCircuit.generateConstraints_allocation id c2wit).2 c2state hgen
  exact ⟨hgen, h.2.2.1.trans (by decide), h.2.2.2.trans (by decide)⟩

/-- C3: constraint translation uses the single rule of `make_index` (below
`num_inputs` to the instance space at the same index, at or above to the
witness space shifted by `num_inputs`), applies it termwise to each sparse
combination, and enforces every constraint in file order over the translated
combinations. -/
theorem CircomCircuit.generateConstraints_translation {F : Type} (ofN : Nat → F)
    (c : CircomCircuit F) :
    (∀ s, c.generateConstraints ofN = some s →
      s.enforced = c.r1cs.constraints.map (translateConstraint c.r1cs.num_inputs)) ∧
    (∀ l : List (Nat × F), makeLC c.r1cs.num_inputs l =
      l.map (fun p => (p.2, makeIndex c.r1cs.num_inputs p.1))) ∧
    (∀ index, index < c.r1cs.num_inputs →
      makeIndex c.r1cs.num_inputs index = .Instance index) ∧
    (∀ index, c.r1cs.num_inputs ≤ index →
      makeIndex c.r1cs.num_inputs index = .Witness (index - c.r1cs.num_inputs)) := by
  refine ⟨?_, makeLC_eq_map c.r1cs.num_inputs, ?_, ?_⟩
  · intro s hs
    rw [generateConstraints_eq] at hs
    cases h1 : fetchAll (fun i => witnessValue ofN c.witness i)
        (List.range' 1 (c.r1cs.num_inputs - 1)) with
    | none => rw [h1] at hs; exact absurd hs (by simp)
    | some vi =>
      rw [h1] at hs
      cases h2 : fetchAll (fun i => witnessValue ofN c.witness (i + c.r1cs.num_inputs))
          (List.range c.r1cs.num_aux) with
      | none => rw [h2] at hs; exact absurd hs (by simp)
      | some vw =>
        rw [h2] at hs
        simp only [Option.some.injEq] at hs
        rw [← hs]
  · intro index h
    unfold makeIndex
    rw [if_pos h]
  · intro index h
    unfold makeIndex
    rw [if_neg (by omega)]

/-- Circuit used to instantiate C3: one constraint touching the second public
wire (index 2), the first private wire (index 3) and the constant (index 0). -/
def c3wit : CircomCircuit Nat := ⟨⟨3, 2, 5, [([(2, 7)], [(3, 7)], [(0, 9)])]⟩, none⟩

/-- Synthesis trace of `c3wit`. -/
def c3state : SynthState Nat :=
  ⟨[1, 1], [1, 1],
    [([(7, .Instance 2)], [(7, .Witness 0)], [(9, .Instance 0)])]⟩

/-- C3 witness: wire index 2 resolves to the second public variable, index 3
to the first private variable, and the constraint is enforced translated. -/
theorem CircomCircuit.generateConstraints_translation_witness :
    c3wit.generateConstraints id = some c3state ∧
    c3state.enforced =
      c3wit.r1cs.constraints.map (translateConstraint c3wit.r1cs.num_inputs) ∧
    makeIndex c3wit.r1cs.num_inputs 2 = .Instance 2 ∧
    makeIndex c3wit.r1cs.num_inputs 3 = .Witness 0 := by
  have hgen : c3wit.generateConstraints id = some c3state := rfl
  refine ⟨hgen, (CircomCircuit.generateConstraints_translation id c3wit).1 c3state hgen,
    (CircomCircuit.generateConstraints_translation id c3wit).2.2.1 2 (by decide), ?_⟩
  exact (CircomCircuit.generateConstraints_translation id c3wit).2.2.2 3 (by decide)

/-- C5: the constraint reader produces exactly `header.n_constraints`
constraints; each is three consecutive combinations in the order A, B, C, each
read as a u32 term count followed by that many (u32 index, u32 value) pairs
with the value sent through `F::from`; duplicate indices are preserved as read
and indices are not checked against wire bounds (the round-trip holds for
arbitrary in-u32-range raw data, including repeated and out-of-range
indices). -/
theorem readConstraints_spec {F : Type} (ofN : Nat → F) :
    (∀ (h : Header) (s rem : List Nat) (out : List (Constraints F)),
      readConstraints ofN h s = .ok (out, rem) → out.length = h.n_constraints) ∧
    (∀ (h : Header)
      (raws : List (List (Nat × Nat) × List (Nat × Nat) × List (Nat × Nat)))
      (rest : List Nat), rawOk raws → h.n_constraints = raws.length →
      readConstraints ofN h (encodeConstraintsRaw raws ++ rest) =
        .ok (raws.map (interpConstraint ofN), rest)) := by
  constructor
  · intro h s rem out hok
    exact readConstraintsLoop_length ofN hok
  · intro h raws rest hraw hn
    unfold readConstraints
    rw [hn]
    exact readConstraintsLoop_encode ofN raws rest hraw

/-- Header used to instantiate C5: 2 wires, 1 constraint. -/
def hdr5 : Header := ⟨4, m31Bytes, 2, 0, 0, 0, 2, 1⟩

/-- Raw constraint used to instantiate C5: the A row repeats index 5 (also out
of the 2-wire range) twice. -/
def raw5 : List (List (Nat × Nat) × List (Nat × Nat) × List (Nat × Nat)) :=
  [([(5, 9), (5, 2)], [(0, 1)], [])]

/-- C5 witness: the duplicated out-of-range index is preserved as read, and
exactly `n_constraints = 1` constraint is produced. -/
theorem readConstraints_spec_witness :
    readConstraints (fun n => n) hdr5 (encodeConstraintsRaw raw5 ++ []) =
      .ok ([([(5, 9), (5, 2)], [(0, 1)], [])], []) ∧
    ([([(5, 9), (5, 2)], [(0, 1)], [])] : List (Constraints Nat)).length =
      hdr5.n_constraints := by
  have h2 := (readConstraints_spec (fun n : Nat => n)).2 hdr5 raw5 []
    (by decide) (by decide)
  refine ⟨by rw [h2]; rfl, ?_⟩
  exact (readConstraints_spec (fun n : Nat => n)).1 hdr5 _ _ _ h2

/-- C6: the header parser fails with the dedicated typed error when the
field-size integer is not 4, when the declared section length is not
`32 + field_size`, or when the modulus bytes differ from the single supported
pattern; otherwise it reads wire count, public-output count, public-input
count, private-input count (u32), label count (u64) and constraint count
(u32) in that fixed little-endian order. -/
theorem headerNew_spec :
    (∀ (hd : Header) (rest : List Nat), hd.field_size = 4 → hd.prime_size = m31Bytes →
      hd.n_wires < 4294967296 → hd.n_pub_out < 4294967296 → hd.n_pub_in < 4294967296 →
      hd.n_prv_in < 4294967296 → hd.n_labels < 18446744073709551616 →
      hd.n_constraints < 4294967296 →
      Header.new 36 (encodeHeaderPayload hd ++ rest) = .ok (hd, rest)) ∧
    (∀ (size : Nat) (s s' : List Nat) (fs : Nat), readU32 s = .ok (fs, s') → fs ≠ 4 →
      Header.new size s = .error .unsupportedFieldSize) ∧
    (∀ (size : Nat) (s s' : List Nat), readU32 s = .ok (4, s') → size ≠ 36 →
      Header.new size s = .error .invalidHeaderSize) ∧
    (∀ (s s' s'' p : List Nat), readU32 s = .ok (4, s') →
      readBytes 4 s' = .ok (p, s'') → p ≠ m31Bytes →
      Header.new 36 s = .error .unsupportedModulus) := by
  refine ⟨headerNew_encode, ?_, ?_, ?_⟩
  · intro size s s' fs h1 hfs
    unfold Header.new
    rw [h1]
    simp only [bindE_ok]
    rw [if_pos hfs]
  · intro size s s' h1 hsz
    unfold Header.new
    rw [h1]
    simp only [bindE_ok]
    rw [if_neg (by omega : ¬((4 : Nat) ≠ 4)), if_pos (by omega : size ≠ 32 + 4)]
  · intro s s' s'' p h1 h2 hp
    unfold Header.new
    rw [h1]
    simp only [bindE_ok]
    rw [if_neg (by omega : ¬((4 : Nat) ≠ 4)),
      if_neg (by omega : ¬((36 : Nat) ≠ 32 + 4))]
    rw [h2]
    simp only [bindE_ok]
    rw [if_pos hp]

/-- Header used to instantiate C6. -/
def hdr6 : Header := ⟨4, m31Bytes, 1, 0, 0, 0, 1, 0⟩

/-- C6 witness: one accepting run and the three rejections at concrete
streams. -/
theorem headerNew_spec_witness :
    Header.new 36 (encodeHeaderPayload hdr6 ++ []) = .ok (hdr6, []) ∧
    Header.new 36 (u32le 5) = .error .unsupportedFieldSize ∧
    Header.new 35 (u32le 4) = .error .invalidHeaderSize ∧
    Header.new 36 (u32le 4 ++ [1, 2, 3, 4]) = .error .unsupportedModulus :=
  ⟨headerNew_spec.1 hdr6 [] rfl rfl (by decide) (by decide) (by decide) (by decide)
      (by decide) (by decide),
    headerNew_spec.2.1 36 (u32le 5) [] 5 rfl (by decide),
    headerNew_spec.2.2.1 35 (u32le 4) [] rfl (by decide),
    headerNew_spec.2.2.2 (u32le 4 ++ [1, 2, 3, 4]) [1, 2, 3, 4] [] [1, 2, 3, 4]
      rfl rfl (by decide)⟩

theorem buildSection_length (t : Nat) (p : List Nat) :
    (buildSection t p).length = 12 + p.length := by
  simp [buildSection, u32le, u64le]
  omega

theorem drop_shift {data : List Nat} {pos : Nat} (l r : List Nat)
    (h : data.drop pos = l ++ r) : data.drop (pos + l.length) = r := by
  rw [← List.drop_drop, h, List.drop_left]

theorem readBytesAt_of_drop {data l r : List Nat} {pos n : Nat}
    (h : data.drop pos = l ++ r) (hl : l.length = n) (hn : 0 < n) :
    readBytesAt data pos n = .ok (l, pos + n) := by
  have hlen : data.length - pos = n + r.length := by
    rw [← List.length_drop, h]
    simp [hl]
  unfold readBytesAt
  rw [if_pos (by omega), h]
  subst hl
  rw [List.take_left]

theorem readU32At_of_drop {data r : List Nat} {pos v : Nat}
    (h : data.drop pos = u32le v ++ r) (hv : v < 4294967296) :
    readU32At data pos = .ok (v, pos + 4) := by
  unfold readU32At
  rw [readBytesAt_of_drop h (leBytes_length 4 v) (by omega)]
  simp only [bindE_ok]
  unfold u32le
  rw [leOfBytes_leBytes_of_lt (by norm_num [hv])]

theorem readU64At_of_drop {data r : List Nat} {pos v : Nat}
    (h : data.drop pos = u64le v ++ r) (hv : v < 18446744073709551616) :
    readU64At data pos = .ok (v, pos + 8) := by
  unfold readU64At
  rw [readBytesAt_of_drop h (leBytes_length 8 v) (by omega)]
  simp only [bindE_ok]
  unfold u64le
  rw [leOfBytes_leBytes_of_lt (by norm_num [hv])]

theorem sectionScan_step {data : List Nat} {pos t : Nat} {p rest : List Nat}
    (h : data.drop pos = buildSection t p ++ rest) (ht : t < 4294967296)
    (hp : p.length < 9223372036854775808) (n : Nat) (offs sizes : List (Nat × Nat)) :
    sectionScan data (n + 1) pos offs sizes =
      sectionScan data n (pos + 12 + p.length)
        (hmInsert offs t (pos + 12)) (hmInsert sizes t p.length) := by
  have h' : data.drop pos = u32le t ++ (u64le p.length ++ (p ++ rest)) := by
    rw [h]
    simp [buildSection]
  have h4 : data.drop (pos + 4) = u64le p.length ++ (p ++ rest) := by
    have := drop_shift (u32le t) (u64le p.length ++ (p ++ rest)) h'
    rw [show (u32le t).length = 4 from leBytes_length 4 t] at this
    exact this
  have hseek : seekCurrent (pos + 4 + 8) p.length = .ok (pos + 12 + p.length) := by
    unfold seekCurrent i64OfU64
    rw [if_pos hp]
    rw [if_neg (by omega)]
    have harith : ((pos + 4 + 8 : Nat) + (p.length : Int)).toNat = pos + 12 + p.length := by
      omega
    rw [harith]
  simp only [sectionScan]
  rw [readU32At_of_drop h' ht]
  simp only [bindE_ok]
  rw [readU64At_of_drop h4 (by omega)]
  simp only [bindE_ok]
  rw [hseek]
  simp only [bindE_ok]

/-- C7: `R1CSFile::new` fails with the dedicated typed error when the first
four bytes differ from the magic constant or the version differs from 1, fails
with the missing-header error when no type-1 section was seen, and never
yields a model when no type-2 section was seen. -/
theorem r1csNew_rejects {F : Type} (ofN : Nat → F) :
    (∀ (data b rest : List Nat), data = b ++ rest → b.length = 4 → b ≠ magicBytes →
      R1CSFile.new ofN data = .error .invalidMagic) ∧
    (∀ (v : Nat) (rest : List Nat), v < 4294967296 → v ≠ 1 →
      R1CSFile.new ofN (magicBytes ++ (u32le v ++ rest)) = .error .unsupportedVersion) ∧
    (∀ (data : List Nat) (ns : Nat) (offs sizes : List (Nat × Nat)),
      readBytesAt data 0 4 = .ok (magicBytes, 4) →
      readU32At data 4 = .ok (1, 8) →
      readU32At data 8 = .ok (ns, 12) →
      sectionScan data ns 12 [] [] = .ok (offs, sizes) →
      hmGet offs 1 = none →
      R1CSFile.new ofN data = .error .missingHeaderOffset) ∧
    (∀ (data : List Nat) (ns : Nat) (offs sizes : List (Nat × Nat)),
      readBytesAt data 0 4 = .ok (magicBytes, 4) →
      readU32At data 4 = .ok (1, 8) →
      readU32At data 8 = .ok (ns, 12) →
      sectionScan data ns 12 [] [] = .ok (offs, sizes) →
      hmGet offs 2 = none →
      ∀ file : R1CSFile F, R1CSFile.new ofN data ≠ .ok file) := by
  refine ⟨?_, ?_, ?_, ?_⟩
  · intro data b rest hsplit hb4 hbne
    have d0 : data.drop 0 = b ++ rest := by rw [List.drop_zero]; exact hsplit
    have hm : readBytesAt data 0 4 = .ok (b, 0 + 4) :=
      readBytesAt_of_drop d0 hb4 (by omega)
    unfold R1CSFile.new
    rw [hm]
    simp only [bindE_ok]
    rw [if_pos hbne]
  · intro v rest hvlt hvne
    have d0 : (magicBytes ++ (u32le v ++ rest)).drop 0 = magicBytes ++ (u32le v ++ rest) :=
      List.drop_zero _
    have hm : readBytesAt (magicBytes ++ (u32le v ++ rest)) 0 4 = .ok (magicBytes, 0 + 4) :=
      readBytesAt_of_drop d0 rfl (by omega)
    have d4 : (magicBytes ++ (u32le v ++ rest)).drop (0 + 4) = u32le v ++ rest :=
      drop_shift magicBytes _ d0
    have hv1 : readU32At (magicBytes ++ (u32le v ++ rest)) (0 + 4) = .ok (v, 0 + 4 + 4) :=
      readU32At_of_drop d4 hvlt
    unfold R1CSFile.new
    rw [hm]
    simp only [bindE_ok]
    rw [if_neg (fun hc => hc rfl)]
    rw [hv1]
    simp only [bindE_ok]
    rw [if_pos hvne]
  · intro data ns offs sizes h1 h2 h3 h4 h5
    unfold R1CSFile.new
    rw [h1]
    simp only [bindE_ok]
    rw [if_neg (fun hc => hc rfl)]
    rw [h2]
    simp only [bindE_ok]
    rw [if_neg (fun hc => hc rfl)]
    rw [h3]
    simp only [bindE_ok]
    rw [h4]
    simp only [bindE_ok]
    rw [h5]
  · intro data ns offs sizes h1 h2 h3 h4 h5 file
    unfold R1CSFile.new
    rw [h1]
    simp only [bindE_ok]
    rw [if_neg (fun hc => hc rfl)]
    rw [h2]
    simp only [bindE_ok]
    rw [if_neg (fun hc => hc rfl)]
    rw [h3]
    simp only [bindE_ok]
    rw [h4]
    simp only [bindE_ok]
    cases hg1 : hmGet offs 1 with
    | none => simp
    | some ho =>
      cases hg2 : hmGet sizes 1 with
      | none => simp
      | some hs =>
        cases hh : Header.new hs (data.drop ho) with
        | error e => simp [hh]
        | ok ph =>
          simp only [hh, bindE_ok]
          rw [h5]
          simp

/-- Stream used to instantiate C7's missing-header rejection: zero sections. -/
def dataNoSections : List Nat := magicBytes ++ u32le 1 ++ u32le 0

/-- Stream used to instantiate C7's missing-constraints rejection: one header
section only. -/
def dataOnlyHeader : List Nat := buildFile [(1, encodeHeaderPayload hdr6)]

/-- C7 witness: the four rejections at concrete byte streams. -/
theorem r1csNew_rejects_witness :
    R1CSFile.new (fun n : Nat => n) [0, 0, 0, 0] = .error .invalidMagic ∧
    R1CSFile.new (fun n : Nat => n) (magicBytes ++ (u32le 2 ++ [])) =
      .error .unsupportedVersion ∧
    R1CSFile.new (fun n : Nat => n) dataNoSections = .error .missingHeaderOffset ∧
    R1CSFile.new (fun n : Nat => n) dataOnlyHeader ≠ .ok ⟨1, hdr6, []⟩ :=
  ⟨(r1csNew_rejects (fun n : Nat => n)).1 [0, 0, 0, 0] [0, 0, 0, 0] [] rfl rfl (by decide),
    (r1csNew_rejects (fun n : Nat => n)).2.1 2 [] (by decide) (by decide),
    (r1csNew_rejects (fun n : Nat => n)).2.2.1 dataNoSections 0 [] [] rfl rfl rfl rfl rfl,
    (r1csNew_rejects (fun n : Nat => n)).2.2.2 dataOnlyHeader 1 [(1, 24)] [(1, 36)]
      rfl rfl rfl rfl rfl ⟨1, hdr6, []⟩⟩

/-- C8: section discovery is order-independent.  For a well-formed stream —
one whose header payload parses exactly (consuming the whole payload) and
whose constraint payload parses exactly against that header — the file parses
to the same model whether the header section precedes or follows the
constraint section, because each section's data offset is recorded as the
position right after its type and length fields and the reader seeks forward
by the declared length. -/
theorem r1csNew_section_order {F : Type} (ofN : Nat → F) (hp cp : List Nat)
    (hdr : Header) (cl : List (Constraints F))
    (hhp : Header.new hp.length hp = .ok (hdr, []))
    (hcp : readConstraints ofN hdr cp = .ok (cl, []))
    (hplen : hp.length < 9223372036854775808)
    (hclen : cp.length < 9223372036854775808) :
    R1CSFile.new ofN (buildFile [(1, hp), (2, cp)]) = .ok ⟨1, hdr, cl⟩ ∧
    R1CSFile.new ofN (buildFile [(2, cp), (1, hp)]) = .ok ⟨1, hdr, cl⟩ := by
  constructor
  · set data := buildFile [(1, hp), (2, cp)] with hdata
    have d0 : data.drop 0 = magicBytes ++
        (u32le 1 ++ (u32le 2 ++ (buildSection 1 hp ++ (buildSection 2 cp ++ [])))) := by
      rw [List.drop_zero, hdata]
      simp [buildFile, buildSections, List.append_assoc]
    have hm : readBytesAt data 0 4 = .ok (magicBytes, 0 + 4) :=
      readBytesAt_of_drop d0 rfl (by omega)
    have d4 : data.drop (0 + 4) =
        u32le 1 ++ (u32le 2 ++ (buildSection 1 hp ++ (buildSection 2 cp ++ []))) :=
      drop_shift magicBytes _ d0
    have hv1 : readU32At data (0 + 4) = .ok (1, 0 + 4 + 4) :=
      readU32At_of_drop d4 (by omega)
    have d8 : data.drop (0 + 4 + 4) =
        u32le 2 ++ (buildSection 1 hp ++ (buildSection 2 cp ++ [])) :=
      drop_shift (u32le 1) _ d4
    have hv2 : readU32At data (0 + 4 + 4) = .ok (2, 0 + 4 + 4 + 4) :=
      readU32At_of_drop d8 (by omega)
    have dA : data.drop (0 + 4 + 4 + 4) =
        buildSection 1 hp ++ (buildSection 2 cp ++ []) :=
      drop_shift (u32le 2) _ d8
    have step1 : sectionScan data 2 (0 + 4 + 4 + 4) [] [] =
        sectionScan data 1 (0 + 4 + 4 + 4 + 12 + hp.length)
          (hmInsert [] 1 (0 + 4 + 4 + 4 + 12)) (hmInsert [] 1 hp.length) :=
      sectionScan_step dA (by omega) hplen 1 [] []
    have dHdr0 : data.drop (0 + 4 + 4 + 4) =
        (u32le 1 ++ u64le hp.length) ++ (hp ++ (buildSection 2 cp ++ [])) := by
      rw [dA]
      simp [buildSection, List.append_assoc]
    have dHdr : data.drop (0 + 4 + 4 + 4 + 12) = hp ++ (buildSection 2 cp ++ []) :=
      drop_shift (u32le 1 ++ u64le hp.length) _ dHdr0
    have dB : data.drop (0 + 4 + 4 + 4 + 12 + hp.length) = buildSection 2 cp ++ [] :=
      drop_shift hp _ dHdr
    have step2 : sectionScan data 1 (0 + 4 + 4 + 4 + 12 + hp.length)
        (hmInsert [] 1 (0 + 4 + 4 + 4 + 12)) (hmInsert [] 1 hp.length) =
        sectionScan data 0 (0 + 4 + 4 + 4 + 12 + hp.length + 12 + cp.length)
          (hmInsert (hmInsert [] 1 (0 + 4 + 4 + 4 + 12)) 2
            (0 + 4 + 4 + 4 + 12 + hp.length + 12))
          (hmInsert (hmInsert [] 1 hp.length) 2 cp.length) :=
      sectionScan_step dB (by omega) hclen 0 _ _
    have hscan : sectionScan data 2 (0 + 4 + 4 + 4) [] [] =
        .ok ([(1, 0 + 4 + 4 + 4 + 12), (2, 0 + 4 + 4 + 4 + 12 + hp.length + 12)],
          [(1, hp.length), (2, cp.length)]) := by
      rw [step1, step2]
      rfl
    have dCs0 : data.drop (0 + 4 + 4 + 4 + 12 + hp.length) =
        (u32le 2 ++ u64le cp.length) ++ (cp ++ []) := by
      rw [dB]
      simp [buildSection, List.append_assoc]
    have dCs : data.drop (0 + 4 + 4 + 4 + 12 + hp.length + 12) = cp ++ [] :=
      drop_shift (u32le 2 ++ u64le cp.length) _ dCs0
    have hg1 : hmGet [(1, 0 + 4 + 4 + 4 + 12),
        (2, 0 + 4 + 4 + 4 + 12 + hp.length + 12)] 1 = some (0 + 4 + 4 + 4 + 12) := rfl
    have hgs1 : hmGet [(1, hp.length), (2, cp.length)] 1 = some hp.length := rfl
    have hg2 : hmGet [(1, 0 + 4 + 4 + 4 + 12),
        (2, 0 + 4 + 4 + 4 + 12 + hp.length + 12)] 2 =
        some (0 + 4 + 4 + 4 + 12 + hp.length + 12) := rfl
    have hhdrP : Header.new hp.length (data.drop (0 + 4 + 4 + 4 + 12)) =
        .ok (hdr, [] ++ (buildSection 2 cp ++ [])) := by
      rw [dHdr]
      exact headerNew_ext _ hhp
    have hcsP : readConstraints ofN hdr
        (data.drop (0 + 4 + 4 + 4 + 12 + hp.length + 12)) = .ok (cl, []) := by
      rw [dCs, List.append_nil]
      exact hcp
    unfold R1CSFile.new
    rw [hm]
    simp only [bindE_ok]
    rw [if_neg (fun hc => hc rfl)]
    rw [hv1]
    simp only [bindE_ok]
    rw [if_neg (fun hc => hc rfl)]
    rw [hv2]
    simp only [bindE_ok]
    rw [hscan]
    simp only [bindE_ok]
    simp only [hg1, hgs1]
    rw [hhdrP]
    simp only [bindE_ok]
    simp only [hg2]
    rw [hcsP]
    simp only [bindE_ok]
  · set data := buildFile [(2, cp), (1, hp)] with hdata
    have d0 : data.drop 0 = magicBytes ++
        (u32le 1 ++ (u32le 2 ++ (buildSection 2 cp ++ (buildSection 1 hp ++ [])))) := by
      rw [List.drop_zero, hdata]
      simp [buildFile, buildSections, List.append_assoc]
    have hm : readBytesAt data 0 4 = .ok (magicBytes, 0 + 4) :=
      readBytesAt_of_drop d0 rfl (by omega)
    have d4 : data.drop (0 + 4) =
        u32le 1 ++ (u32le 2 ++ (buildSection 2 cp ++ (buildSection 1 hp ++ []))) :=
      drop_shift magicBytes _ d0
    have hv1 : readU32At data (0 + 4) = .ok (1, 0 + 4 + 4) :=
      readU32At_of_drop d4 (by omega)
    have d8 : data.drop (0 + 4 + 4) =
        u32le 2 ++ (buildSection 2 cp ++ (buildSection 1 hp ++ [])) :=
      drop_shift (u32le 1) _ d4
    have hv2 : readU32At data (0 + 4 + 4) = .ok (2, 0 + 4 + 4 + 4) :=
      readU32At_of_drop d8 (by omega)
    have dA : data.drop (0 + 4 + 4 + 4) =
        buildSection 2 cp ++ (buildSection 1 hp ++ []) :=
      drop_shift (u32le 2) _ d8
    have step1 : sectionScan data 2 (0 + 4 + 4 + 4) [] [] =
        sectionScan data 1 (0 + 4 + 4 + 4 + 12 + cp.length)
          (hmInsert [] 2 (0 + 4 + 4 + 4 + 12)) (hmInsert [] 2 cp.length) :=
      sectionScan_step dA (by omega) hclen 1 [] []
    have dMid0 : data.drop (0 + 4 + 4 + 4) =
        (u32le 2 ++ u64le cp.length) ++ (cp ++ (buildSection 1 hp ++ [])) := by
      rw [dA]
      simp [buildSection, List.append_assoc]
    have dMid : data.drop (0 + 4 + 4 + 4 + 12) = cp ++ (buildSection 1 hp ++ []) :=
      drop_shift (u32le 2 ++ u64le cp.length) _ dMid0
    have dB : data.drop (0 + 4 + 4 + 4 + 12 + cp.length) = buildSection 1 hp ++ [] :=
      drop_shift cp _ dMid
    have step2 : sectionScan data 1 (0 + 4 + 4 + 4 + 12 + cp.length)
        (hmInsert [] 2 (0 + 4 + 4 + 4 + 12)) (hmInsert [] 2 cp.length) =
        sectionScan data 0 (0 + 4 + 4 + 4 + 12 + cp.length + 12 + hp.length)
          (hmInsert (hmInsert [] 2 (0 + 4 + 4 + 4 + 12)) 1
            (0 + 4 + 4 + 4 + 12 + cp.length + 12))
          (hmInsert (hmInsert [] 2 cp.length) 1 hp.length) :=
      sectionScan_step dB (by omega) hplen 0 _ _
    have hscan : sectionScan data 2 (0 + 4 + 4 + 4) [] [] =
        .ok ([(2, 0 + 4 + 4 + 4 + 12), (1, 0 + 4 + 4 + 4 + 12 + cp.length + 12)],
          [(2, cp.length), (1, hp.length)]) := by
      rw [step1, step2]
      rfl
    have dHdr0 : data.drop (0 + 4 + 4 + 4 + 12 + cp.length) =
        (u32le 1 ++ u64le hp.length) ++ (hp ++ []) := by
      rw [dB]
      simp [buildSection, List.append_assoc]
    have dHdr : data.drop (0 + 4 + 4 + 4 + 12 + cp.length + 12) = hp ++ [] :=
      drop_shift (u32le 1 ++ u64le hp.length) _ dHdr0
    have hg1 : hmGet [(2, 0 + 4 + 4 + 4 + 12),
        (1, 0 + 4 + 4 + 4 + 12 + cp.length + 12)] 1 =
        some (0 + 4 + 4 + 4 + 12 + cp.length + 12) := rfl
    have hgs1 : hmGet [(2, cp.length), (1, hp.length)] 1 = some hp.length := rfl
    have hg2 : hmGet [(2, 0 + 4 + 4 + 4 + 12),
        (1, 0 + 4 + 4 + 4 + 12 + cp.length + 12)] 2 = some (0 + 4 + 4 + 4 + 12) := rfl
    have hhdrP : Header.new hp.length
        (data.drop (0 + 4 + 4 + 4 + 12 + cp.length + 12)) = .ok (hdr, []) := by
      rw [dHdr, List.append_nil]
      exact hhp
    have hcsP : readConstraints ofN hdr (data.drop (0 + 4 + 4 + 4 + 12)) =
        .ok (cl, [] ++ (buildSection 1 hp ++ [])) := by
      rw [dMid]
      exact readConstraintsLoop_ext ofN _ hcp
    unfold R1CSFile.new
    rw [hm]
    simp only [bindE_ok]
    rw [if_neg (fun hc => hc rfl)]
    rw [hv1]
    simp only [bindE_ok]
    rw [if_neg (fun hc => hc rfl)]
    rw [hv2]
    simp only [bindE_ok]
    rw [hscan]
    simp only [bindE_ok]
    simp only [hg1, hgs1]
    rw [hhdrP]
    simp only [bindE_ok]
    simp only [hg2]
    rw [hcsP]
    simp only [bindE_ok]

/-- C8 witness: a concrete file with a valid header payload and an empty
constraint payload parses to the same model in both section orders. -/
theorem r1csNew_section_order_witness :
    R1CSFile.new (fun n : Nat => n)
      (buildFile [(1, encodeHeaderPayload hdr6), (2, [])]) = .ok ⟨1, hdr6, []⟩ ∧
    R1CSFile.new (fun n : Nat => n)
      (buildFile [(2, []), (1, encodeHeaderPayload hdr6)]) = .ok ⟨1, hdr6, []⟩ :=
  r1csNew_section_order (fun n : Nat => n) (encodeHeaderPayload hdr6) [] hdr6 []
    rfl rfl (by decide) (by decide)

end CircomCompat
